import Mathlib

/-!
Verification of the sandboxed tool-call execution bridge of the octoclaw
repository.

The configuration store is embedded from
`src/app/runtime/state/sandbox_config.py`; the agent session wiring from
`src/app/runtime/agent/agent.py`.  The sandbox module
(`app.runtime.sandbox`: `SandboxExecutor`, the interceptor and the pure
helper functions) is not part of the checked-in sources — only its tests
(`src/app/runtime/tests/test_sandbox.py`) and callers are — so those
definitions are modelled from the specification, as marked in their doc
comments.

Conventions of the embedding:
* Python lists become Lean `List`s; `frozenset` membership becomes list
  membership on a fixed list.
* The local data root's filesystem is a finite association list from
  relative paths (lists of path segments) to file contents (strings
  standing for byte strings).
* Archive (zip) entry names are represented pre-split at `/`: the raw name
  `"a/b"` is the segment list `["a", "b"]`, `"../x"` is `["..", "x"]`.
-/

namespace Octoclaw

/-! ## Configuration store (`src/app/runtime/state/sandbox_config.py`) -/

/-- `DEFAULT_WHITELIST` from `sandbox_config.py`. -/
def DEFAULT_WHITELIST : List String :=
  ["media", "memory", "notes", "sessions", "skills",
   ".copilot", ".env", ".workiq.json", "agent_profile.json",
   "conversation_refs.json", "infra.json", "interaction_log.json",
   "mcp_servers.json", "plugins.json", "scheduler.json",
   "skill_usage.json", "SOUL.md"]

/-- `BLACKLIST` from `sandbox_config.py` (a `frozenset`; membership only). -/
def BLACKLIST : List String :=
  [".azure", ".cache", ".config", ".IdentityService", ".net", ".npm", ".pki"]

/-- The `SandboxConfig` dataclass. -/
structure SandboxConfig where
  enabled : Bool
  sync_data : Bool
  session_pool_endpoint : String
  whitelist : List String
  resource_group : String
  location : String
  pool_name : String
  pool_id : String
deriving Repr, DecidableEq

/-- The dataclass field defaults of `SandboxConfig`. -/
def SandboxConfig.default : SandboxConfig :=
  { enabled := false
    sync_data := true
    session_pool_endpoint := ""
    whitelist := DEFAULT_WHITELIST
    resource_group := ""
    location := ""
    pool_name := ""
    pool_id := "" }

/-- Python `str.rstrip("/")`: drop every trailing `'/'` character. -/
def rstripSlashes (s : String) : String :=
  ⟨(s.data.reverse.dropWhile (fun c => c == '/')).reverse⟩

/-- `SandboxConfigStore.set_enabled`. -/
def set_enabled (c : SandboxConfig) (b : Bool) : SandboxConfig :=
  { c with enabled := b }

/-- `SandboxConfigStore.set_sync_data`. -/
def set_sync_data (c : SandboxConfig) (b : Bool) : SandboxConfig :=
  { c with sync_data := b }

/-- `SandboxConfigStore.set_session_pool_endpoint`:
stores `endpoint.rstrip("/")`. -/
def set_session_pool_endpoint (c : SandboxConfig) (endpoint : String) :
    SandboxConfig :=
  { c with session_pool_endpoint := rstripSlashes endpoint }

/-- `SandboxConfigStore.set_whitelist`: keeps the supplied entries that are
not blacklisted (`[w for w in whitelist if w not in BLACKLIST]`). -/
def set_whitelist (c : SandboxConfig) (wl : List String) : SandboxConfig :=
  { c with whitelist := wl.filter (fun w => !BLACKLIST.contains w) }

/-- `SandboxConfigStore.add_whitelist_item`: returns the updated config and
the boolean result (`False` exactly when the item is blacklisted). -/
def add_whitelist_item (c : SandboxConfig) (item : String) :
    SandboxConfig × Bool :=
  if BLACKLIST.contains item then (c, false)
  else if c.whitelist.contains item then (c, true)
  else ({ c with whitelist := c.whitelist ++ [item] }, true)

/-- `SandboxConfigStore.remove_whitelist_item`: Python `list.remove` drops
the first occurrence; when the item is absent the config is unchanged, which
`List.erase` models exactly. -/
def remove_whitelist_item (c : SandboxConfig) (item : String) : SandboxConfig :=
  { c with whitelist := c.whitelist.erase item }

/-- `SandboxConfigStore.reset_whitelist`. -/
def reset_whitelist (c : SandboxConfig) : SandboxConfig :=
  { c with whitelist := DEFAULT_WHITELIST }

/-- `SandboxConfigStore.set_pool_metadata`: sets the four metadata fields and
stores `endpoint.rstrip("/")`. -/
def set_pool_metadata (c : SandboxConfig) (resource_group location pool_name
    pool_id endpoint : String) : SandboxConfig :=
  { c with
    resource_group := resource_group
    location := location
    pool_name := pool_name
    pool_id := pool_id
    session_pool_endpoint := rstripSlashes endpoint }

/-- `SandboxConfigStore.clear_pool_metadata`. -/
def clear_pool_metadata (c : SandboxConfig) : SandboxConfig :=
  { c with
    resource_group := ""
    location := ""
    pool_name := ""
    pool_id := ""
    session_pool_endpoint := "" }

/-- One keyword argument of `SandboxConfigStore.update`.  A key equal to
`"whitelist"` is routed through `set_whitelist`; any other key that names a
dataclass field is set directly via `setattr`; an unknown key is ignored. -/
inductive UpdateArg where
  | whitelist (l : List String)
  | enabled (b : Bool)
  | sync_data (b : Bool)
  | session_pool_endpoint (s : String)
  | resource_group (s : String)
  | location (s : String)
  | pool_name (s : String)
  | pool_id (s : String)
  | unknownKey (k : String)
deriving Repr, DecidableEq

/-- One iteration of the `for k, v in kwargs.items()` loop in
`SandboxConfigStore.update`. -/
def applyUpdateArg (c : SandboxConfig) : UpdateArg → SandboxConfig
  | .whitelist l => set_whitelist c l
  | .enabled b => { c with enabled := b }
  | .sync_data b => { c with sync_data := b }
  | .session_pool_endpoint s => { c with session_pool_endpoint := s }
  | .resource_group s => { c with resource_group := s }
  | .location s => { c with location := s }
  | .pool_name s => { c with pool_name := s }
  | .pool_id s => { c with pool_id := s }
  | .unknownKey _ => c

/-- `SandboxConfigStore.update(**kwargs)`. -/
def update (c : SandboxConfig) (args : List UpdateArg) : SandboxConfig :=
  args.foldl applyUpdateArg c

/-- `SandboxConfigStore.is_provisioned`:
`bool(pool_name and session_pool_endpoint)`. -/
def is_provisioned (c : SandboxConfig) : Bool :=
  c.pool_name != "" && c.session_pool_endpoint != ""

/-- The single mutation operations of the configuration store. -/
inductive Mutation where
  | setEnabled (b : Bool)
  | setSyncData (b : Bool)
  | setEndpoint (s : String)
  | setWhitelist (l : List String)
  | addItem (s : String)
  | removeItem (s : String)
  | resetWl
  | setPoolMetadata (rg loc pn pid ep : String)
  | clearPoolMetadata
  | updateKw (args : List UpdateArg)
deriving Repr, DecidableEq

/-- Dispatch a single mutation operation on the store's state. -/
def applyMutation (c : SandboxConfig) : Mutation → SandboxConfig
  | .setEnabled b => set_enabled c b
  | .setSyncData b => set_sync_data c b
  | .setEndpoint s => set_session_pool_endpoint c s
  | .setWhitelist l => set_whitelist c l
  | .addItem s => (add_whitelist_item c s).1
  | .removeItem s => remove_whitelist_item c s
  | .resetWl => reset_whitelist c
  | .setPoolMetadata rg loc pn pid ep => set_pool_metadata c rg loc pn pid ep
  | .clearPoolMetadata => clear_pool_metadata c
  | .updateKw args => update c args

/-- A whitelist replacement supplied inside an `update` keyword argument is
duplicate-free (trivially true for every other argument). -/
def argNodupInput : UpdateArg → Prop
  | .whitelist l => l.Nodup
  | _ => True

/-- Every whitelist replacement supplied by the mutation is duplicate-free
(trivially true for mutations that carry none). -/
def mutationNodupInputs : Mutation → Prop
  | .setWhitelist l => l.Nodup
  | .updateKw args => ∀ a ∈ args, argNodupInput a
  | _ => True

/-- The blacklist invariant: no whitelist entry is blacklisted. -/
def blacklistDisjoint (c : SandboxConfig) : Prop :=
  ∀ w ∈ c.whitelist, w ∉ BLACKLIST

instance (c : SandboxConfig) : Decidable (blacklistDisjoint c) := by
  unfold blacklistDisjoint; infer_instance

/-! ### Loading the persisted file (`SandboxConfigStore._load`) -/

/-- A successfully parsed JSON object for the persisted configuration: each
`raw.get(key, default)` call sees either a present value or an absent key. -/
structure RawConfig where
  enabled : Option Bool
  sync_data : Option Bool
  session_pool_endpoint : Option String
  whitelist : Option (List String)
  resource_group : Option String
  location : Option String
  pool_name : Option String
  pool_id : Option String
deriving Repr, DecidableEq

/-- The on-disk state of the persisted configuration file as `_load` sees it:
missing, a file whose content fails `json.loads` or whose parsed value does
not have object shape (the `raw.get` calls raise, the exception is caught),
or a parsed JSON object. -/
inductive FileState where
  | missing
  | unparseable
  | parsed (raw : RawConfig)
deriving Repr, DecidableEq

/-- `SandboxConfigStore.__init__` followed by `_load`: the store starts from
the dataclass defaults, returns them unchanged when the file is missing,
keeps them when loading raises (the exception is caught and logged), and
otherwise takes each field from the parsed object with the same defaults. -/
def loadConfig (fs : FileState) : SandboxConfig :=
  match fs with
  | .missing => SandboxConfig.default
  | .unparseable => SandboxConfig.default
  | .parsed raw =>
    { enabled := raw.enabled.getD false
      sync_data := raw.sync_data.getD true
      session_pool_endpoint := raw.session_pool_endpoint.getD ""
      whitelist := raw.whitelist.getD DEFAULT_WHITELIST
      resource_group := raw.resource_group.getD ""
      location := raw.location.getD ""
      pool_name := raw.pool_name.getD ""
      pool_id := raw.pool_id.getD "" }

/-! ## Data model of the local data root

Files under the data root form a finite association list from relative
paths (segment lists) to contents.  A real filesystem state is well formed:
paths are pairwise distinct, nonempty, and each segment is a genuine name
(nonempty, not `.` or `..`, containing no `/`). -/

/-- The files under the local data root: relative path segments ↦ content. -/
abbrev FS := List (List String × String)

/-- Look up a file's content at a relative path. -/
def fsRead (fs : FS) (p : List String) : Option String :=
  (fs.find? (fun e => e.1 = p)).map (·.2)

/-- Write (create or overwrite) a file at a relative path. -/
def fsWrite (fs : FS) (p : List String) (content : String) : FS :=
  (p, content) :: fs.filter (fun e => e.1 ≠ p)

/-- A path segment that survives normalization unchanged: nonempty and
neither `.` nor `..`. -/
def normalSeg (s : String) : Bool :=
  s != "" && s != "." && s != ".."

/-- A string that can occur as one real path segment of a stored file. -/
def validSeg (s : String) : Bool :=
  normalSeg s && !s.data.contains '/'

/-- A well-formed data-root state: distinct, nonempty paths whose segments
are genuine file names. -/
def FS.wf (fs : FS) : Prop :=
  (fs.map Prod.fst).Nodup ∧
    ∀ e ∈ fs, e.1 ≠ [] ∧ ∀ seg ∈ e.1, validSeg seg = true

instance (fs : FS) : Decidable (FS.wf fs) := by
  unfold FS.wf; infer_instance

/-! ## Spec-modelled sandbox helpers

The module `app.runtime.sandbox` is not in the checked-in sources; the
definitions below are modelled from the specification (sections 4.1–4.5)
and cross-checked against `src/app/runtime/tests/test_sandbox.py`. -/

/-- Modelled from the spec: `_is_shell_tool` of the missing
`app.runtime.sandbox` module — true iff the lower-cased tool name contains
one of `"terminal"`, `"shell"`, `"bash"`, `"command"` as a substring. -/
def isShellTool (name : String) : Bool :=
  ["terminal", "shell", "bash", "command"].any
    (fun k => decide (k.data <:+: name.toLower.data))

/-- One step of relative-path normalization: `.` and empty segments are
dropped, `..` pops the last kept segment and escapes the data root (`none`)
when there is nothing left to pop, and any other segment is kept. -/
def normStep (st : Option (List String)) (seg : String) : Option (List String) :=
  match st with
  | none => none
  | some acc =>
    if seg = "" ∨ seg = "." then some acc
    else if seg = ".." then
      match acc with
      | [] => none
      | _ => some acc.dropLast
    else some (acc ++ [seg])

/-- Normalize an archive entry's relative path (already split at `/`):
`some` of the normalized segments when it stays inside the data root,
`none` when any parent-directory traversal would resolve outside it. -/
def normalizeSegs (p : List String) : Option (List String) :=
  p.foldl normStep (some [])

/-- An archive: zip entry names (split at `/`) paired with contents. -/
abbrev Archive := List (List String × String)

/-- Modelled from the spec: the per-entry acceptance test of
`SandboxExecutor._merge_result_zip` — the normalized path resolves inside
the data root and its top-level segment is whitelisted. -/
def acceptEntry (wl : List String) (name : List String) : Bool :=
  match normalizeSegs name with
  | some (top :: _) => wl.contains top
  | _ => false

/-- Modelled from the spec: the loop body of
`SandboxExecutor._merge_result_zip` — write an accepted entry at its
normalized path and count it, skip a rejected entry silently. -/
def mergeStep (wl : List String) (acc : FS × Nat) (e : List String × String) :
    FS × Nat :=
  match normalizeSegs e.1 with
  | some (top :: rest) =>
    if wl.contains top then (fsWrite acc.1 (top :: rest) e.2, acc.2 + 1)
    else acc
  | _ => acc

/-- Modelled from the spec: `SandboxExecutor._merge_result_zip` of the
missing `app.runtime.sandbox` module (`merge_bundle` in the spec) — for
each archive entry in order, write it at its normalized path if it is
accepted, skip it silently otherwise; return the final state and the count
of accepted entries. -/
def merge_bundle (wl : List String) (fs : FS) (a : Archive) : FS × Nat :=
  a.foldl (mergeStep wl) (fs, 0)

/-- Modelled from the spec: `SandboxExecutor._create_data_zip` of the
missing `app.runtime.sandbox` module (`build_bundle` in the spec) — for
each whitelist entry in order, include the existing file of that name
verbatim and every file beneath the existing directory of that name at its
relative path; return `none` (Python `None`) instead of an empty archive
when no whitelisted entry exists on disk. -/
def build_bundle (wl : List String) (fs : FS) : Option Archive :=
  let entries := wl.flatMap (fun w => fs.filter (fun e => e.1.head? = some w))
  if entries.isEmpty then none else some entries

/-- The raw arguments handed to a tool call, as `_extract_command` and
`_parse_tool_args` receive them.  A bare string carries the result of
`json.loads` on it as an oracle: `some m` when the string decodes to a JSON
object (with the string values of the command-bearing keys), `none` when
decoding fails or yields a non-object. -/
inductive ToolArgs where
  | null
  | dict (m : List (String × String))
  | str (s : String) (parsed : Option (List (String × String)))
deriving Repr, DecidableEq

/-- First non-absent value among `command`, `cmd`, `input`, `script`, in
that priority order. -/
def extractFromDict (m : List (String × String)) : Option String :=
  match m.lookup "command" with
  | some v => some v
  | none =>
    match m.lookup "cmd" with
    | some v => some v
    | none =>
      match m.lookup "input" with
      | some v => some v
      | none => m.lookup "script"

/-- Modelled from the spec: `_extract_command` of the missing
`app.runtime.sandbox` module — a mapping yields the first non-absent value
among `command`, `cmd`, `input`, `script`; a bare string is decoded as a
JSON object and extracted the same way, falling back to the string itself
when decoding fails; anything else yields the empty string. -/
def extract_command : ToolArgs → String
  | .null => ""
  | .dict m => (extractFromDict m).getD ""
  | .str s parsed =>
    match parsed with
    | some m => (extractFromDict m).getD ""
    | none => s

/-- Modelled from the spec: `_build_replay_command` of the missing
`app.runtime.sandbox` module — emit a command writing `stdout` to standard
output and `stderr` to standard error (the `>&2` redirection), append the
nonzero-exit directive `exit 1` on failure, and produce the canonical no-op
`true` when there is nothing to emit. -/
def build_replay (stdout stderr : String) (success : Bool) : String :=
  let outPart :=
    if stdout = "" then ""
    else "cat << 'OCTOCLAW_REPLAY_EOF'\n" ++ stdout ++ "\nOCTOCLAW_REPLAY_EOF\n"
  let errPart :=
    if stderr = "" then ""
    else "cat << 'OCTOCLAW_REPLAY_EOF' >&2\n" ++ stderr ++ "\nOCTOCLAW_REPLAY_EOF\n"
  let exitPart := if success then "" else "exit 1\n"
  let script := outPart ++ errPart ++ exitPart
  if script = "" then "true" else script

/-- `needle` occurs as a contiguous substring of `hay`. -/
def containsStr (needle hay : String) : Prop :=
  needle.data <:+: hay.data

/-- The interceptor's pre-call decision: pass the call through locally
unmodified, or intercept it and run the extracted command remotely. -/
inductive HookDecision where
  | noInterception
  | intercept (command : String)
deriving Repr, DecidableEq

/-- Modelled from the spec: the pre-call hook
(`SandboxToolInterceptor.on_pre_tool_use` of the missing
`app.runtime.sandbox` module) — "no interception" when `is_shell_tool` is
false or the configuration is disabled; otherwise decode the arguments,
extract the command and hand it to the remote dispatch. -/
def on_pre_tool_use (c : SandboxConfig) (toolName : String)
    (args : ToolArgs) : HookDecision :=
  if !isShellTool toolName || !c.enabled then .noInterception
  else .intercept (extract_command args)

/-- The hooks `Agent._build_session_config` installs in the session. -/
inductive SessionHooks where
  | sandboxHooks
  | autoApproveOnly
deriving Repr, DecidableEq

/-- `Agent._build_session_config` (`src/app/runtime/agent/agent.py`), hook
selection: the sandbox interceptor hooks are installed only when an
interceptor and an executor are set and the executor's config is enabled
(`self._interceptor and self._sandbox and self._sandbox.enabled`);
otherwise only the `auto_approve` pre-hook is installed. -/
def buildSessionHooks (hasInterceptor hasSandbox : Bool)
    (sandboxEnabled : Bool) : SessionHooks :=
  if hasInterceptor && hasSandbox && sandboxEnabled then .sandboxHooks
  else .autoApproveOnly

/-! ## Helper lemmas -/

lemma head?_dropWhile_ne {p : Char → Bool} :
    ∀ (l : List Char) (a : Char), (l.dropWhile p).head? = some a → p a = false := by
  intro l
  induction l with
  | nil => intro a h; simp [List.dropWhile] at h
  | cons c t ih =>
    intro a h
    by_cases hp : p c
    · rw [List.dropWhile_cons_of_pos hp] at h
      exact ih a h
    · rw [List.dropWhile_cons_of_neg hp] at h
      simp at h
      subst h
      exact Bool.not_eq_true _ ▸ eq_false_of_ne_true hp

lemma rstripSlashes_getLast? (s : String) (a : Char)
    (h : (rstripSlashes s).data.getLast? = some a) : (a == '/') = false := by
  unfold rstripSlashes at h
  rw [show (String.mk ((s.data.reverse.dropWhile (fun c => c == '/')).reverse)).data
        = (s.data.reverse.dropWhile (fun c => c == '/')).reverse from rfl,
      List.getLast?_reverse] at h
  exact head?_dropWhile_ne _ a h

lemma rstripSlashes_all_slashes (s : String) (h : ∀ ch ∈ s.data, ch = '/') :
    rstripSlashes s = "" := by
  unfold rstripSlashes
  have : s.data.reverse.dropWhile (fun c => c == '/') = [] := by
    rw [List.dropWhile_eq_nil_iff]
    intro x hx
    simp [h x (List.mem_reverse.mp hx)]
  rw [this]
  rfl

lemma blacklistDisjoint_set_whitelist (c : SandboxConfig) (l : List String) :
    blacklistDisjoint (set_whitelist c l) := by
  intro w hw hmem
  simp only [set_whitelist, List.mem_filter, Bool.not_eq_true'] at hw
  have h2 : List.elem w BLACKLIST = false := hw.2
  rw [← List.elem_iff] at hmem
  rw [hmem] at h2
  exact Bool.noConfusion h2

lemma blacklistDisjoint_applyUpdateArg {c : SandboxConfig}
    (h : blacklistDisjoint c) (a : UpdateArg) :
    blacklistDisjoint (applyUpdateArg c a) := by
  cases a with
  | whitelist l => exact blacklistDisjoint_set_whitelist c l
  | _ => exact h

lemma blacklistDisjoint_update {c : SandboxConfig} (h : blacklistDisjoint c)
    (args : List UpdateArg) : blacklistDisjoint (update c args) := by
  induction args generalizing c with
  | nil => exact h
  | cons a rest ih =>
    rw [update, List.foldl_cons]
    exact ih (blacklistDisjoint_applyUpdateArg h a)

lemma nodup_applyUpdateArg {c : SandboxConfig} {a : UpdateArg}
    (h : c.whitelist.Nodup) (ha : argNodupInput a) :
    (applyUpdateArg c a).whitelist.Nodup := by
  cases a with
  | whitelist l => exact List.Nodup.filter _ ha
  | _ => exact h

lemma nodup_update {c : SandboxConfig} {args : List UpdateArg}
    (h : c.whitelist.Nodup) (ha : ∀ a ∈ args, argNodupInput a) :
    (update c args).whitelist.Nodup := by
  induction args generalizing c with
  | nil => exact h
  | cons a rest ih =>
    rw [update, List.foldl_cons]
    exact ih (nodup_applyUpdateArg h (ha a (List.mem_cons_self a rest)))
      (fun x hx => ha x (List.mem_cons_of_mem a hx))

/-! ## C10: endpoint normalization -/

/-- C10: `set_session_pool_endpoint` and `set_pool_metadata` strip every
trailing `/` before storing the endpoint, so the stored endpoint never ends
with `/`; an endpoint consisting only of slashes is stored as the empty
string, which `is_provisioned` treats as not provisioned. -/
theorem c10_endpoint_normalization (c : SandboxConfig) (e : String) :
    (set_session_pool_endpoint c e).session_pool_endpoint.data.getLast? ≠ some '/'
  ∧ (∀ rg loc pn pid,
      (set_pool_metadata c rg loc pn pid e).session_pool_endpoint.data.getLast?
        ≠ some '/')
  ∧ ((∀ ch ∈ e.data, ch = '/') →
      (set_session_pool_endpoint c e).session_pool_endpoint = ""
    ∧ is_provisioned (set_session_pool_endpoint c e) = false) := by
  refine ⟨?_, fun rg loc pn pid => ?_, fun h => ?_⟩
  · intro hcontra
    have := rstripSlashes_getLast? e '/' hcontra
    simp at this
  · intro hcontra
    have := rstripSlashes_getLast? e '/' hcontra
    simp at this
  · have he : rstripSlashes e = "" := rstripSlashes_all_slashes e h
    constructor
    · exact he
    · show ((set_session_pool_endpoint c e).pool_name != ""
        && (set_session_pool_endpoint c e).session_pool_endpoint != "") = false
      have : (set_session_pool_endpoint c e).session_pool_endpoint = "" := he
      rw [this]
      simp

/-- Witness for C10 at a concrete slashes-only endpoint. -/
theorem c10_witness :
    (set_session_pool_endpoint SandboxConfig.default "///").session_pool_endpoint = ""
  ∧ is_provisioned (set_session_pool_endpoint SandboxConfig.default "///") = false :=
  (c10_endpoint_normalization SandboxConfig.default "///").2.2 (by decide)

/-! ## C8: load failures fall back to defaults -/

/-- C8: constructing the configuration store is total in the embedding, and
when the persisted file is missing or its content fails to parse (or to have
object shape), the store holds exactly the built-in defaults: disabled,
sync on, the default whitelist, empty endpoint and empty pool metadata. -/
theorem c8_load_fallback (fs : FileState)
    (h : fs = FileState.missing ∨ fs = FileState.unparseable) :
    loadConfig fs = SandboxConfig.default
  ∧ (loadConfig fs).enabled = false
  ∧ (loadConfig fs).sync_data = true
  ∧ (loadConfig fs).whitelist = DEFAULT_WHITELIST
  ∧ (loadConfig fs).session_pool_endpoint = ""
  ∧ (loadConfig fs).resource_group = ""
  ∧ (loadConfig fs).location = ""
  ∧ (loadConfig fs).pool_name = ""
  ∧ (loadConfig fs).pool_id = "" := by
  rcases h with h | h <;> subst h <;>
    exact ⟨rfl, rfl, rfl, rfl, rfl, rfl, rfl, rfl, rfl⟩

/-- Witness for C8 at the missing-file state. -/
theorem c8_witness : loadConfig FileState.missing = SandboxConfig.default :=
  (c8_load_fallback FileState.missing (Or.inl rfl)).1

/-! ## C2: blacklist invariant -/

/-- C2 counterexample: from a starting configuration whose whitelist already
contains the blacklisted entry `".azure"` (reachable, since `_load` accepts
the persisted whitelist without filtering), `remove_whitelist_item "x"`
leaves the blacklisted entry in place, so `whitelist ∩ blacklist = ∅` does
not hold after that mutation. -/
theorem c2_counterexample :
    ¬ blacklistDisjoint (applyMutation
      { SandboxConfig.default with whitelist := [".azure", "x"] }
      (Mutation.removeItem "x")) := by
  decide

/-- C2 amended: every mutation of the store preserves the blacklist
invariant when it already holds; `add_whitelist_item` with a blacklisted
item returns `false` and leaves the configuration unchanged; and
`set_whitelist` establishes the invariant from any starting state. -/
theorem c2_blacklist_invariant (c : SandboxConfig) (m : Mutation)
    (h : blacklistDisjoint c) :
    blacklistDisjoint (applyMutation c m)
  ∧ (∀ item ∈ BLACKLIST, add_whitelist_item c item = (c, false))
  ∧ (∀ l, blacklistDisjoint (set_whitelist c l)) := by
  refine ⟨?_, fun item hitem => ?_, fun l => blacklistDisjoint_set_whitelist c l⟩
  · cases m with
    | setWhitelist l => exact blacklistDisjoint_set_whitelist c l
    | addItem s =>
      show blacklistDisjoint (add_whitelist_item c s).1
      unfold add_whitelist_item
      by_cases hb : BLACKLIST.contains s = true
      · simp only [hb, if_true]
        exact h
      · rw [if_neg (by simpa using hb)]
        by_cases hm : c.whitelist.contains s = true
        · simp only [hm, if_true]
          exact h
        · rw [if_neg (by simpa using hm)]
          intro w hw
          rcases List.mem_append.mp hw with hw1 | hw2
          · exact h w hw1
          · have : w = s := by simpa using hw2
            subst this
            intro hmem
            rw [← List.elem_iff] at hmem
            exact hb hmem
    | removeItem s =>
      intro w hw
      exact h w ((List.erase_sublist s c.whitelist).mem hw)
    | resetWl =>
      have hd : ∀ w ∈ DEFAULT_WHITELIST, w ∉ BLACKLIST := by decide
      intro w hw
      exact hd w hw
    | updateKw args => exact blacklistDisjoint_update h args
    | _ => exact h
  · unfold add_whitelist_item
    rw [if_pos (List.elem_iff.mpr hitem)]

/-- Witness for the amended C2: the default configuration satisfies the
invariant and it is preserved by a concrete `add_whitelist_item`. -/
theorem c2_witness :
    blacklistDisjoint (applyMutation SandboxConfig.default
      (Mutation.addItem "projects"))
  ∧ add_whitelist_item SandboxConfig.default ".azure"
      = (SandboxConfig.default, false) :=
  ⟨(c2_blacklist_invariant SandboxConfig.default (Mutation.addItem "projects")
      (by decide)).1,
   (c2_blacklist_invariant SandboxConfig.default (Mutation.addItem "projects")
      (by decide)).2.1 ".azure" (by decide)⟩

/-! ## C9: duplicate-freeness of the whitelist -/

/-- C9 counterexample: `set_whitelist` does not deduplicate — applied to the
list `["notes", "notes"]` it stores exactly that list, so the resulting
whitelist has a duplicate entry. -/
theorem c9_counterexample :
    ¬ (set_whitelist SandboxConfig.default ["notes", "notes"]).whitelist.Nodup := by
  decide

/-- C9 amended: every mutation of the store preserves duplicate-freeness of
the whitelist provided any whitelist replacement it supplies (via
`set_whitelist` or `update(whitelist=...)`) is itself duplicate-free;
`set_whitelist` copies the supplied list (minus blacklisted entries)
without deduplicating it. -/
theorem c9_whitelist_nodup (c : SandboxConfig) (m : Mutation)
    (h1 : c.whitelist.Nodup) (h2 : mutationNodupInputs m) :
    (applyMutation c m).whitelist.Nodup := by
  cases m with
  | setWhitelist l => exact List.Nodup.filter _ h2
  | addItem s =>
    show (add_whitelist_item c s).1.whitelist.Nodup
    unfold add_whitelist_item
    by_cases hb : BLACKLIST.contains s = true
    · simp only [hb, if_true]
      exact h1
    · rw [if_neg (by simpa using hb)]
      by_cases hm : c.whitelist.contains s = true
      · simp only [hm, if_true]
        exact h1
      · rw [if_neg (by simpa using hm)]
        have hnotmem : s ∉ c.whitelist := by
          intro hs
          exact hm (List.elem_iff.mpr hs)
        simp [List.nodup_append, h1, hnotmem]
  | removeItem s => exact h1.erase s
  | resetWl =>
    show DEFAULT_WHITELIST.Nodup
    decide
  | updateKw args => exact nodup_update h1 h2
  | _ => exact h1

/-- Witness for the amended C9 at a concrete add on the default config. -/
theorem c9_witness :
    (applyMutation SandboxConfig.default (Mutation.addItem "notes")).whitelist.Nodup :=
  c9_whitelist_nodup SandboxConfig.default (Mutation.addItem "notes")
    (by decide) (by trivial)

/-! ## C6: disabled configuration means no interception -/

/-- C6: when the configuration is disabled, the pre-call hook returns "no
interception" for every tool name (even a shell-classified one) and every
argument; and `Agent._build_session_config` installs only the
`auto_approve` hook (no sandbox interceptor hooks) whatever interceptor and
executor are set. -/
theorem c6_disabled_no_interception (c : SandboxConfig)
    (h : c.enabled = false) :
    (∀ toolName args, on_pre_tool_use c toolName args = HookDecision.noInterception)
  ∧ (∀ hasInterceptor hasSandbox,
      buildSessionHooks hasInterceptor hasSandbox c.enabled
        = SessionHooks.autoApproveOnly) := by
  constructor
  · intro toolName args
    unfold on_pre_tool_use
    rw [h]
    simp
  · intro hasInterceptor hasSandbox
    unfold buildSessionHooks
    rw [h]
    simp

/-- Witness for C6: the default (disabled) configuration does not intercept
a shell-classified call, and the session wiring installs only
`auto_approve` even with interceptor and executor present. -/
theorem c6_witness :
    on_pre_tool_use SandboxConfig.default "run_in_terminal"
      (ToolArgs.dict [("command", "rm -rf /")]) = HookDecision.noInterception
  ∧ buildSessionHooks true true SandboxConfig.default.enabled
      = SessionHooks.autoApproveOnly :=
  ⟨(c6_disabled_no_interception SandboxConfig.default rfl).1 "run_in_terminal"
      (ToolArgs.dict [("command", "rm -rf /")]),
   (c6_disabled_no_interception SandboxConfig.default rfl).2 true true⟩

/-! ## C5: command extraction priority -/

/-- C5: `extract_command` returns, for a mapping, the first non-absent value
among the keys `command`, `cmd`, `input`, `script` in that priority order
(in particular `{"command": "ls", "cmd": "pwd"}` yields `"ls"`); for a bare
string it extracts from the string's JSON-object decode by the same
priority and falls back to the string itself when decoding fails; and it
returns the empty string for an empty mapping or `None`. -/
theorem c5_extract_command :
    extract_command (ToolArgs.dict [("command", "ls"), ("cmd", "pwd")]) = "ls"
  ∧ (∀ m v, m.lookup "command" = some v →
      extract_command (ToolArgs.dict m) = v)
  ∧ (∀ m v, m.lookup "command" = none → m.lookup "cmd" = some v →
      extract_command (ToolArgs.dict m) = v)
  ∧ (∀ m v, m.lookup "command" = none → m.lookup "cmd" = none →
      m.lookup "input" = some v → extract_command (ToolArgs.dict m) = v)
  ∧ (∀ m v, m.lookup "command" = none → m.lookup "cmd" = none →
      m.lookup "input" = none → m.lookup "script" = some v →
      extract_command (ToolArgs.dict m) = v)
  ∧ (∀ s m, extract_command (ToolArgs.str s (some m))
      = extract_command (ToolArgs.dict m))
  ∧ (∀ s, extract_command (ToolArgs.str s none) = s)
  ∧ extract_command (ToolArgs.dict []) = ""
  ∧ extract_command ToolArgs.null = "" := by
  refine ⟨rfl, ?_, ?_, ?_, ?_, fun s m => rfl, fun s => rfl, rfl, rfl⟩
  · intro m v h
    simp [extract_command, extractFromDict, h]
  · intro m v h1 h2
    simp [extract_command, extractFromDict, h1, h2]
  · intro m v h1 h2 h3
    simp [extract_command, extractFromDict, h1, h2, h3]
  · intro m v h1 h2 h3 h4
    simp [extract_command, extractFromDict, h1, h2, h3, h4]

/-- Witness for C5: a concrete mapping where `command` is absent and `cmd`
supplies the result. -/
theorem c5_witness :
    extract_command (ToolArgs.dict [("cmd", "pwd"), ("input", "x")]) = "pwd" :=
  c5_extract_command.2.2.1 [("cmd", "pwd"), ("input", "x")] "pwd" rfl rfl

/-! ## C7: replay command -/

/-- C7: the replay builder yields the canonical no-op `"true"` (never the
empty string) for two empty streams and success, and for every `stdout` and
`stderr` its result on failure contains the nonzero-exit directive
`exit 1`. -/
theorem c7_build_replay :
    build_replay "" "" true = "true"
  ∧ (∀ stdout stderr, containsStr "exit 1" (build_replay stdout stderr false)) := by
  constructor
  · rfl
  · intro stdout stderr
    unfold build_replay containsStr
    simp only [Bool.false_eq_true, if_false]
    set outPart := if stdout = "" then ""
      else "cat << 'OCTOCLAW_REPLAY_EOF'\n" ++ stdout ++ "\nOCTOCLAW_REPLAY_EOF\n"
      with houtPart
    set errPart := if stderr = "" then ""
      else "cat << 'OCTOCLAW_REPLAY_EOF' >&2\n" ++ stderr ++ "\nOCTOCLAW_REPLAY_EOF\n"
      with herrPart
    have hne : outPart ++ errPart ++ "exit 1\n" ≠ "" := by
      intro hcontra
      have : (outPart ++ errPart ++ "exit 1\n").data = [] := by rw [hcontra]
      rw [String.data_append, String.data_append] at this
      rcases List.append_eq_nil.mp this with ⟨-, h2⟩
      exact List.cons_ne_nil _ _ h2
    rw [if_neg hne, String.data_append, String.data_append]
    refine ⟨outPart.data ++ errPart.data, ['\n'], ?_⟩
    rw [List.append_assoc]
    congr 1

/-! ## Lemmas on the data-sync protocol -/

lemma find?_filter_ne (fs : FS) (p q : List String) (hpq : p ≠ q) :
    (fs.filter (fun e => e.1 ≠ q)).find? (fun e => e.1 = p)
      = fs.find? (fun e => e.1 = p) := by
  induction fs with
  | nil => rfl
  | cons e t ih =>
    by_cases heq : e.1 = q
    · rw [List.filter_cons_of_neg (by simp [heq])]
      rw [List.find?_cons_of_neg _ (by simp [heq]; exact fun h => hpq h.symm)]
      exact ih
    · rw [List.filter_cons_of_pos (by simp [heq])]
      by_cases hep : e.1 = p
      · rw [List.find?_cons_of_pos _ (by simp [hep]),
            List.find?_cons_of_pos _ (by simp [hep])]
      · rw [List.find?_cons_of_neg _ (by simp [hep]),
            List.find?_cons_of_neg _ (by simp [hep])]
        exact ih

lemma fsRead_fsWrite (fs : FS) (q : List String) (content : String)
    (p : List String) :
    fsRead (fsWrite fs q content) p
      = if p = q then some content else fsRead fs p := by
  unfold fsRead fsWrite
  by_cases hpq : p = q
  · subst hpq
    rw [List.find?_cons_of_pos _ (by simp), if_pos rfl]
    rfl
  · rw [List.find?_cons_of_neg _ (by simp [Ne.symm hpq]), if_neg hpq,
        find?_filter_ne fs p q hpq]

lemma fsRead_of_mem_nodup {fs : FS} (hnd : (fs.map Prod.fst).Nodup)
    {e : List String × String} (he : e ∈ fs) : fsRead fs e.1 = some e.2 := by
  induction fs with
  | nil => cases he
  | cons hd t ih =>
    rcases List.mem_cons.mp he with rfl | ht
    · unfold fsRead
      rw [List.find?_cons_of_pos _ (by simp)]
      rfl
    · have hne : hd.1 ≠ e.1 := by
        intro hcontra
        have h1 : hd.1 ∉ t.map Prod.fst := (List.nodup_cons.mp hnd).1
        exact h1 (hcontra ▸ List.mem_map_of_mem Prod.fst ht)
      unfold fsRead
      rw [List.find?_cons_of_neg _ (by simp [hne])]
      exact ih (List.nodup_cons.mp hnd).2 ht

lemma acceptEntry_true_iff (wl : List String) (name : List String) :
    acceptEntry wl name = true ↔
      ∃ top rest, normalizeSegs name = some (top :: rest)
        ∧ wl.contains top = true := by
  unfold acceptEntry
  constructor
  · intro h
    cases hn : normalizeSegs name with
    | none => rw [hn] at h; cases h
    | some q =>
      cases q with
      | nil => rw [hn] at h; cases h
      | cons top rest =>
        rw [hn] at h
        exact ⟨top, rest, rfl, h⟩
  · rintro ⟨top, rest, hn, hw⟩
    rw [hn]
    exact hw

lemma mergeStep_not_accepted {wl : List String} {e : List String × String}
    (h : acceptEntry wl e.1 = false) (acc : FS × Nat) :
    mergeStep wl acc e = acc := by
  unfold mergeStep
  cases hn : normalizeSegs e.1 with
  | none => rfl
  | some q =>
    cases q with
    | nil => rfl
    | cons top rest =>
      have hw : top ∉ wl := by
        unfold acceptEntry at h
        rw [hn] at h
        simpa using h
      simp [hw]

lemma mergeStep_accepted {wl : List String} {e : List String × String}
    {top : String} {rest : List String}
    (hn : normalizeSegs e.1 = some (top :: rest))
    (hw : wl.contains top = true) (acc : FS × Nat) :
    mergeStep wl acc e = (fsWrite acc.1 (top :: rest) e.2, acc.2 + 1) := by
  have hw2 : top ∈ wl := List.elem_iff.mp hw
  unfold mergeStep
  rw [hn]
  simp [hw2]

lemma merge_fold_count (wl : List String) :
    ∀ (a : Archive) (fs0 : FS) (n0 : Nat),
      (a.foldl (mergeStep wl) (fs0, n0)).2
        = n0 + a.countP (fun e => acceptEntry wl e.1) := by
  intro a
  induction a with
  | nil => intro fs0 n0; simp
  | cons e t ih =>
    intro fs0 n0
    rw [List.foldl_cons]
    by_cases hacc : acceptEntry wl e.1 = true
    · rcases (acceptEntry_true_iff wl e.1).mp hacc with ⟨top, rest, hn, hw⟩
      rw [mergeStep_accepted hn hw, ih]
      simp only [List.countP_cons, hacc, if_true]
      omega
    · have hf : acceptEntry wl e.1 = false := by simpa using hacc
      rw [mergeStep_not_accepted hf (fs0, n0), ih]
      simp [List.countP_cons, hf]

lemma merge_fold_frame (wl : List String) :
    ∀ (a : Archive) (fs0 : FS) (n0 : Nat) (p : List String),
      fsRead (a.foldl (mergeStep wl) (fs0, n0)).1 p ≠ fsRead fs0 p →
      ∃ e ∈ a, acceptEntry wl e.1 = true ∧ normalizeSegs e.1 = some p := by
  intro a
  induction a with
  | nil => intro fs0 n0 p h; exact absurd rfl h
  | cons e t ih =>
    intro fs0 n0 p h
    rw [List.foldl_cons] at h
    by_cases hacc : acceptEntry wl e.1 = true
    · rcases (acceptEntry_true_iff wl e.1).mp hacc with ⟨top, rest, hn, hw⟩
      rw [mergeStep_accepted hn hw] at h
      by_cases hp : p = top :: rest
      · exact ⟨e, List.mem_cons_self e t, hacc, hp ▸ hn⟩
      · have hread : fsRead (fsWrite fs0 (top :: rest) e.2) p = fsRead fs0 p := by
          rw [fsRead_fsWrite, if_neg hp]
        have h2 : fsRead (t.foldl (mergeStep wl)
            (fsWrite fs0 (top :: rest) e.2, n0 + 1)).1 p
            ≠ fsRead (fsWrite fs0 (top :: rest) e.2) p := by
          rw [hread]; exact h
        rcases ih _ _ p h2 with ⟨e', he', ha', hn'⟩
        exact ⟨e', List.mem_cons_of_mem e he', ha', hn'⟩
    · have hf : acceptEntry wl e.1 = false := by simpa using hacc
      rw [mergeStep_not_accepted hf (fs0, n0)] at h
      rcases ih _ _ p h with ⟨e', he', ha', hn'⟩
      exact ⟨e', List.mem_cons_of_mem e he', ha', hn'⟩

lemma fsRead_fold_mono (wl : List String) :
    ∀ (a : Archive) (fs0 : FS) (n0 : Nat) (p : List String),
      fsRead fs0 p ≠ none →
      fsRead (a.foldl (mergeStep wl) (fs0, n0)).1 p ≠ none := by
  intro a
  induction a with
  | nil => intro fs0 n0 p h; exact h
  | cons e t ih =>
    intro fs0 n0 p h
    rw [List.foldl_cons]
    by_cases hacc : acceptEntry wl e.1 = true
    · rcases (acceptEntry_true_iff wl e.1).mp hacc with ⟨top, rest, hn, hw⟩
      rw [mergeStep_accepted hn hw]
      refine ih _ _ p ?_
      rw [fsRead_fsWrite]
      by_cases hp : p = top :: rest
      · rw [if_pos hp]; exact Option.some_ne_none _
      · rw [if_neg hp]; exact h
    · have hf : acceptEntry wl e.1 = false := by simpa using hacc
      rw [mergeStep_not_accepted hf (fs0, n0)]
      exact ih _ _ p h

lemma merge_fold_present (wl : List String) :
    ∀ (a : Archive) (fs0 : FS) (n0 : Nat) (e : List String × String),
      e ∈ a → acceptEntry wl e.1 = true →
      ∀ p, normalizeSegs e.1 = some p →
      fsRead (a.foldl (mergeStep wl) (fs0, n0)).1 p ≠ none := by
  intro a
  induction a with
  | nil => intro fs0 n0 e he; cases he
  | cons hd t ih =>
    intro fs0 n0 e he hacc p hp
    rw [List.foldl_cons]
    rcases List.mem_cons.mp he with rfl | ht
    · rcases (acceptEntry_true_iff wl e.1).mp hacc with ⟨top, rest, hn, hw⟩
      rw [hn] at hp
      injection hp with hp
      rw [mergeStep_accepted hn hw]
      refine fsRead_fold_mono wl t _ _ p ?_
      rw [fsRead_fsWrite, hp, if_pos rfl]
      exact Option.some_ne_none _
    · exact ih _ _ e ht hacc p hp

lemma foldl_normStep_none : ∀ (l : List String), l.foldl normStep none = none := by
  intro l
  induction l with
  | nil => rfl
  | cons s t ih =>
    rw [List.foldl_cons]
    exact ih

lemma foldl_normStep_normal :
    ∀ (l : List String) (acc : List String),
      (∀ s ∈ acc, normalSeg s = true) →
      ∀ q, l.foldl normStep (some acc) = some q →
      ∀ s ∈ q, normalSeg s = true := by
  intro l
  induction l with
  | nil =>
    intro acc hacc q hq
    rw [List.foldl_nil] at hq
    injection hq with hq
    subst hq
    exact hacc
  | cons seg t ih =>
    intro acc hacc q hq
    rw [List.foldl_cons] at hq
    by_cases h1 : seg = "" ∨ seg = "."
    · rw [show normStep (some acc) seg = some acc from by simp [normStep, h1]] at hq
      exact ih acc hacc q hq
    · by_cases h2 : seg = ".."
      · cases hnil : acc with
        | nil =>
          rw [show normStep (some acc) seg = none from by
            rw [hnil]; simp [normStep, h1, h2]] at hq
          rw [foldl_normStep_none] at hq
          cases hq
        | cons a as =>
          rw [show normStep (some acc) seg = some acc.dropLast from by
            rw [hnil]; simp [normStep, h1, h2]] at hq
          refine ih acc.dropLast (fun s hs => hacc s ?_) q hq
          exact (List.dropLast_sublist acc).mem hs
      · have hseg : normalSeg seg = true := by
          simp only [normalSeg, Bool.and_eq_true, bne_iff_ne, ne_eq]
          push_neg at h1
          exact ⟨⟨h1.1, h1.2⟩, h2⟩
        rw [show normStep (some acc) seg = some (acc ++ [seg]) from by
          simp [normStep, h1, h2]] at hq
        refine ih (acc ++ [seg]) ?_ q hq
        intro s hs
        rcases List.mem_append.mp hs with hs1 | hs2
        · exact hacc s hs1
        · have : s = seg := by simpa using hs2
          exact this ▸ hseg

lemma foldl_normStep_valid_id :
    ∀ (l : List String) (acc : List String),
      (∀ s ∈ l, normalSeg s = true) →
      l.foldl normStep (some acc) = some (acc ++ l) := by
  intro l
  induction l with
  | nil => intro acc _; simp
  | cons seg t ih =>
    intro acc h
    have hseg : normalSeg seg = true := h seg (List.mem_cons_self seg t)
    have hseg' : ¬(seg = "" ∨ seg = ".") ∧ seg ≠ ".." := by
      simp only [normalSeg, Bool.and_eq_true, bne_iff_ne, ne_eq] at hseg
      constructor
      · push_neg
        exact ⟨hseg.1.1, hseg.1.2⟩
      · exact hseg.2
    rw [List.foldl_cons,
        show normStep (some acc) seg = some (acc ++ [seg]) from by
          simp [normStep, hseg'.1, hseg'.2],
        ih (acc ++ [seg]) (fun s hs => h s (List.mem_cons_of_mem seg hs))]
    simp

lemma normalizeSegs_valid_id (l : List String)
    (h : ∀ s ∈ l, normalSeg s = true) : normalizeSegs l = some l := by
  unfold normalizeSegs
  simpa using foldl_normStep_valid_id l [] h

lemma normalizeSegs_normal {l q : List String}
    (h : normalizeSegs l = some q) : ∀ s ∈ q, normalSeg s = true :=
  foldl_normStep_normal l [] (by simp) q h

lemma build_bundle_mem (wl : List String) (fs : FS) (ent : List String × String) :
    ent ∈ wl.flatMap (fun w => fs.filter (fun e => e.1.head? = some w))
      ↔ ent ∈ fs ∧ ∃ w ∈ wl, ent.1.head? = some w := by
  rw [List.mem_flatMap]
  constructor
  · rintro ⟨w, hw, hent⟩
    rw [List.mem_filter] at hent
    exact ⟨hent.1, w, hw, by simpa using hent.2⟩
  · rintro ⟨hfs, w, hw, hh⟩
    exact ⟨w, hw, List.mem_filter.mpr ⟨hfs, by simpa using hh⟩⟩

/-! ## C1: merge safety -/

/-- C1: `merge_bundle` counts exactly the accepted entries — those whose
normalized path resolves inside the data root with a currently whitelisted
top-level segment; every other entry is skipped without effect (the
function is total, so nothing is raised); only normalized paths of accepted
entries are ever created or modified, every such path lies inside the data
root (nonempty, whitelisted head, no residual `.`/`..`/empty segment), and
every accepted entry's normalized path ends up present. -/
theorem c1_merge_safety (wl : List String) (fs : FS) (a : Archive) :
    (merge_bundle wl fs a).2 = a.countP (fun e => acceptEntry wl e.1)
  ∧ (∀ p, fsRead (merge_bundle wl fs a).1 p ≠ fsRead fs p →
      ∃ e ∈ a, acceptEntry wl e.1 = true ∧ normalizeSegs e.1 = some p)
  ∧ (∀ p, fsRead (merge_bundle wl fs a).1 p ≠ fsRead fs p →
      ∃ top rest, p = top :: rest ∧ wl.contains top = true
        ∧ ∀ seg ∈ p, normalSeg seg = true)
  ∧ (∀ e ∈ a, acceptEntry wl e.1 = true →
      ∀ p, normalizeSegs e.1 = some p →
      fsRead (merge_bundle wl fs a).1 p ≠ none) := by
  refine ⟨?_, ?_, ?_, ?_⟩
  · rw [merge_bundle, merge_fold_count wl a fs 0]
    simp
  · intro p h
    exact merge_fold_frame wl a fs 0 p h
  · intro p h
    rcases merge_fold_frame wl a fs 0 p h with ⟨e, _, hacc, hn⟩
    rcases (acceptEntry_true_iff wl e.1).mp hacc with ⟨top, rest, hn', hw⟩
    rw [hn'] at hn
    injection hn with hn
    exact ⟨top, rest, hn.symm, hw, hn ▸ normalizeSegs_normal hn'⟩
  · intro e he hacc p hp
    exact merge_fold_present wl a fs 0 e he hacc p hp

/-- Witness for C1 on the spec's concrete scenario: the traversal entry
`../secrets.txt` is rejected, `notes/todo.txt` is accepted (count via the
accept predicate evaluates to `1`), and the accepted path is present. -/
theorem c1_witness :
    (merge_bundle ["notes"] []
        [(["..", "secrets.txt"], "s"), (["notes", "todo.txt"], "todo")]).2 = 1
  ∧ fsRead (merge_bundle ["notes"] []
        [(["..", "secrets.txt"], "s"), (["notes", "todo.txt"], "todo")]).1
      ["notes", "todo.txt"] ≠ none := by
  constructor
  · rw [(c1_merge_safety ["notes"] []
      [(["..", "secrets.txt"], "s"), (["notes", "todo.txt"], "todo")]).1]
    decide
  · exact (c1_merge_safety ["notes"] []
      [(["..", "secrets.txt"], "s"), (["notes", "todo.txt"], "todo")]).2.2.2
      (["notes", "todo.txt"], "todo") (by decide) (by decide)
      ["notes", "todo.txt"] (by decide)

/-! ## C4: bundle contents -/

lemma build_bundle_if (wl : List String) (fs : FS) :
    build_bundle wl fs
      = if (wl.flatMap (fun w => fs.filter (fun e => e.1.head? = some w))).isEmpty
        then none
        else some (wl.flatMap (fun w => fs.filter (fun e => e.1.head? = some w))) :=
  rfl

lemma build_bundle_some_mem {wl : List String} {fs : FS} {a : Archive}
    (h : build_bundle wl fs = some a) :
    ∀ e ∈ a, e ∈ fs ∧ ∃ w ∈ wl, e.1.head? = some w := by
  rw [build_bundle_if] at h
  by_cases hemp :
      (wl.flatMap (fun w => fs.filter (fun e => e.1.head? = some w))).isEmpty
  · rw [if_pos hemp] at h
    cases h
  · rw [if_neg hemp] at h
    injection h with h
    subst h
    intro e he
    exact (build_bundle_mem wl fs e).mp he

/-- C4: `build_bundle` returns the distinguished absent value exactly when
no file under the data root lies below a whitelisted top-level name, and
otherwise the archive holds exactly the files below whitelisted names —
each at its relative path with its on-disk content. -/
theorem c4_build_bundle (wl : List String) (fs : FS) (hwf : FS.wf fs) :
    (build_bundle wl fs = none ↔ ∀ e ∈ fs, ∀ w ∈ wl, e.1.head? ≠ some w)
  ∧ (∀ a, build_bundle wl fs = some a →
      (∀ ent, ent ∈ a ↔ ent ∈ fs ∧ ∃ w ∈ wl, ent.1.head? = some w)
    ∧ (∀ ent ∈ a, fsRead fs ent.1 = some ent.2)) := by
  constructor
  · rw [build_bundle_if]
    constructor
    · intro h e he w hw hh
      by_cases hemp :
          (wl.flatMap (fun w => fs.filter (fun e => e.1.head? = some w))).isEmpty
      · have hnil := List.isEmpty_iff.mp hemp
        have : e ∈ wl.flatMap (fun w => fs.filter (fun e => e.1.head? = some w)) :=
          (build_bundle_mem wl fs e).mpr ⟨he, w, hw, hh⟩
        rw [hnil] at this
        cases this
      · rw [if_neg hemp] at h
        cases h
    · intro h
      have hnil : wl.flatMap (fun w => fs.filter (fun e => e.1.head? = some w)) = [] := by
        rw [List.eq_nil_iff_forall_not_mem]
        intro ent hent
        rcases (build_bundle_mem wl fs ent).mp hent with ⟨hfs, w, hw, hh⟩
        exact h ent hfs w hw hh
      rw [if_pos (List.isEmpty_iff.mpr hnil)]
  · intro a ha
    refine ⟨?_, ?_⟩
    · intro ent
      rw [build_bundle_if] at ha
      by_cases hemp :
          (wl.flatMap (fun w => fs.filter (fun e => e.1.head? = some w))).isEmpty
      · rw [if_pos hemp] at ha
        cases ha
      · rw [if_neg hemp] at ha
        injection ha with ha
        subst ha
        exact build_bundle_mem wl fs ent
    · intro ent hent
      exact fsRead_of_mem_nodup hwf.1 (build_bundle_some_mem ha ent hent).1

/-- Witness for C4: an empty data root yields the absent bundle, and with
`notes/todo.txt` on disk the bundled entry carries the on-disk content. -/
theorem c4_witness :
    build_bundle ["notes"] ([] : FS) = none
  ∧ fsRead [((["notes", "todo.txt"] : List String), "buy milk")]
      ["notes", "todo.txt"] = some "buy milk" :=
  ⟨(c4_build_bundle ["notes"] [] (by decide)).1.mpr (by decide),
   ((c4_build_bundle ["notes"] [(["notes", "todo.txt"], "buy milk")]
        (by decide)).2
      [(["notes", "todo.txt"], "buy milk")] (by decide)).2
     (["notes", "todo.txt"], "buy milk") (by decide)⟩

/-! ## C3: round trip -/

lemma validSeg_normalSeg {s : String} (h : validSeg s = true) :
    normalSeg s = true := by
  unfold validSeg at h
  simp only [Bool.and_eq_true] at h
  exact h.1

lemma merge_fold_roundtrip (wl : List String) (fs : FS) :
    ∀ (a : Archive) (fs0 : FS) (n0 : Nat),
      (∀ e ∈ a, normalizeSegs e.1 = some e.1 ∧ acceptEntry wl e.1 = true ∧
        fsRead fs e.1 = some e.2) →
      (∀ p, fsRead fs0 p = fsRead fs p) →
      (a.foldl (mergeStep wl) (fs0, n0)).2 = n0 + a.length
      ∧ ∀ p, fsRead (a.foldl (mergeStep wl) (fs0, n0)).1 p = fsRead fs p := by
  intro a
  induction a with
  | nil =>
    intro fs0 n0 _ h0
    exact ⟨by simp, h0⟩
  | cons e t ih =>
    intro fs0 n0 he h0
    obtain ⟨hn, hacc, hrd⟩ := he e (List.mem_cons_self e t)
    rcases (acceptEntry_true_iff wl e.1).mp hacc with ⟨top, rest, hn', hw⟩
    have hpath : e.1 = top :: rest := by
      rw [hn] at hn'
      injection hn'
    rw [List.foldl_cons, mergeStep_accepted hn' hw]
    have h0' : ∀ p, fsRead (fsWrite fs0 (top :: rest) e.2) p = fsRead fs p := by
      intro p
      rw [fsRead_fsWrite]
      by_cases hp : p = top :: rest
      · rw [if_pos hp, hp, ← hpath, hrd]
      · rw [if_neg hp]
        exact h0 p
    rcases ih (fsWrite fs0 (top :: rest) e.2) (n0 + 1)
        (fun e' he' => he e' (List.mem_cons_of_mem e he')) h0' with ⟨hc, hr⟩
    refine ⟨?_, hr⟩
    rw [hc]
    simp
    omega

/-- C3: merging a freshly built bundle back under the unchanged whitelist
accepts every entry (the count equals the bundle's length) and leaves every
file under the data root — in particular every whitelisted one —
byte-identical. -/
theorem c3_roundtrip (wl : List String) (fs : FS) (a : Archive)
    (hwf : FS.wf fs) (h : build_bundle wl fs = some a) :
    (merge_bundle wl fs a).2 = a.length
  ∧ ∀ p, fsRead (merge_bundle wl fs a).1 p = fsRead fs p := by
  have hcond : ∀ e ∈ a, normalizeSegs e.1 = some e.1 ∧ acceptEntry wl e.1 = true ∧
      fsRead fs e.1 = some e.2 := by
    intro e he
    rcases build_bundle_some_mem h e he with ⟨hefs, w, hw, hh⟩
    obtain ⟨hne, hsegs⟩ := hwf.2 e hefs
    have hnormal : ∀ s ∈ e.1, normalSeg s = true :=
      fun s hs => validSeg_normalSeg (hsegs s hs)
    have hn : normalizeSegs e.1 = some e.1 := normalizeSegs_valid_id e.1 hnormal
    refine ⟨hn, ?_, fsRead_of_mem_nodup hwf.1 hefs⟩
    cases hp : e.1 with
    | nil => exact absurd hp hne
    | cons a0 as =>
      have ha0 : a0 = w := by
        rw [hp] at hh
        simpa using hh
      exact (acceptEntry_true_iff wl (a0 :: as)).mpr
        ⟨a0, as, hp ▸ hn, List.elem_iff.mpr (ha0.symm ▸ hw)⟩
  have := merge_fold_roundtrip wl fs a fs 0 hcond (fun p => rfl)
  rcases this with ⟨hc, hr⟩
  exact ⟨by rw [merge_bundle, hc]; omega, hr⟩

/-- Witness for C3 on the spec's scenario: whitelist `["notes"]`,
`notes/todo.txt = "buy milk"`; the round trip accepts the single entry and
the file reads back unchanged. -/
theorem c3_witness :
    (merge_bundle ["notes"] [(["notes", "todo.txt"], "buy milk")]
        [(["notes", "todo.txt"], "buy milk")]).2 = 1
  ∧ fsRead (merge_bundle ["notes"] [(["notes", "todo.txt"], "buy milk")]
        [(["notes", "todo.txt"], "buy milk")]).1 ["notes", "todo.txt"]
      = fsRead [(["notes", "todo.txt"], "buy milk")] ["notes", "todo.txt"] :=
  ⟨(c3_roundtrip ["notes"] [(["notes", "todo.txt"], "buy milk")]
      [(["notes", "todo.txt"], "buy milk")] (by decide) (by decide)).1,
   (c3_roundtrip ["notes"] [(["notes", "todo.txt"], "buy milk")]
      [(["notes", "todo.txt"], "buy milk")] (by decide) (by decide)).2
     ["notes", "todo.txt"]⟩

end Octoclaw
